import Mathlib

/-!
Verification of the MY-AI dual-index retrieval and ingestion engine.

Shallow embedding of the core components translated from the Python source:
- `src/core/session_store.py` (SQLite session + message store),
- `src/core/file_storage.py` (journal blob storage, canonical session text),
- `src/rag/journal.py` (journal ingestion, chunk replacement, retrieval),
- `src/rag/chunking.py` (overlapping window chunker),
- `src/core/services/chat_service.py` (context assembler, journal leg),
- `src/rag/workers.py` (document ingestion worker).

Modelling conventions:
- ISO-8601 UTC timestamp strings produced by a monotone clock compare
  lexicographically in the same order as the instants they denote, so
  timestamps are modelled as natural numbers ordered by `<`; each mutating
  operation takes the current clock value `now` as an argument.
- SQLite rows are association lists keyed by the TEXT primary key; `SELECT
  ... WHERE session_id = ?` with `fetchone` returns the first match, and
  `UPDATE ... WHERE session_id = ?` rewrites every matching row.
- Fresh UUIDs (message ids come from AUTOINCREMENT, vector ids from
  `uuid.uuid4()`) are modelled by counters threaded through the state.
- Embedding vectors are never inspected by the verified properties, so a
  query's similarity scores are modelled by an abstract scoring function
  `JournalPoint -> Rat` standing for cosine similarity against the fixed
  query; the spec only uses that scores form a decidable linear order.
- String slicing indices in the chunker are natural numbers; the properties
  proved below stay inside the region where the Python loop variables are
  non-negative.
-/

/-- Python `"\n\n".join(parts)`. -/
def joinNN : List String → String
  | [] => ""
  | [a] => a
  | a :: b :: t => a ++ "\n\n" ++ joinNN (b :: t)

/-- Python truthiness of an optional string (`if name:`): `None` and the
empty string are falsy. -/
def truthyOpt : Option String → Bool
  | none => false
  | some s => !(s == "")

/-- A row of the `messages` table (`src/core/session_store.py`, schema in
`_init_db`): `(id autoincrement, session_id, role, content, timestamp)`. -/
structure Message where
  id : Nat
  sessionId : String
  role : String
  content : String
  timestamp : Nat
  deriving DecidableEq, Repr

/-- A row of the `sessions` table: `(session_id, name, created_at,
last_activity, message_count, ingested_at)`. -/
structure Session where
  name : Option String
  createdAt : Nat
  lastActivity : Nat
  messageCount : Nat
  ingestedAt : Option Nat
  deriving DecidableEq, Repr

/-- One exported session JSON document written by
`JournalBlobStorage.export_session` (`src/core/file_storage.py`). -/
structure ExportData where
  sessionId : String
  name : Option String
  createdAt : Nat
  exportedAt : Nat
  messageCount : Nat
  messages : List Message
  deriving DecidableEq, Repr

/-- One vector of the Journal collection together with its payload
(`JournalChunkPayload` in `src/rag/journal.py`); the fresh `uuid4` point id
is modelled by a numeric id drawn from a counter. -/
structure JournalPoint where
  id : Nat
  text : String
  sessionId : String
  sessionName : Option String
  chunkIndex : Nat
  totalChunks : Nat
  messageCount : Nat
  ingestedAt : Nat
  deriving DecidableEq, Repr

/-- Combined persistent state: the SQLite store (`sessions`, `messages`),
the journal blob directory, and the Journal vector collection. -/
structure World where
  sessions : List (String × Session)
  messages : List Message
  nextMsgId : Nat
  exports : List (String × ExportData)
  journal : List JournalPoint
  nextPointId : Nat
  deriving DecidableEq, Repr

/-- `SELECT * FROM t WHERE key = ?` with `fetchone`: first matching row. -/
def lookupA {α : Type} : List (String × α) → String → Option α
  | [], _ => none
  | (k, v) :: rest, s => if k = s then some v else lookupA rest s

/-- `UPDATE t SET ... WHERE key = ?`: rewrite every matching row. -/
def updateA {α : Type} (f : α → α) (s : String) :
    List (String × α) → List (String × α)
  | [] => []
  | (k, v) :: rest =>
    (k, if k = s then f v else v) :: updateA f s rest

/-- Ordering of `ORDER BY timestamp ASC, id ASC`. -/
def msgLe (a b : Message) : Prop :=
  a.timestamp < b.timestamp ∨ (a.timestamp = b.timestamp ∧ a.id ≤ b.id)

instance : DecidableRel msgLe := fun a b => by
  unfold msgLe
  infer_instance

/-- `SessionStore.get_messages`: rows of the session ordered by
`(timestamp ASC, id ASC)`. -/
def get_messages (w : World) (sid : String) : List Message :=
  List.insertionSort msgLe (w.messages.filter (fun m => m.sessionId == sid))

/-- `SessionStore.upsert_session`: insert with `created_at = last_activity
= now`, `message_count = 0` when absent; otherwise set `last_activity =
now` and, when `name` is truthy, the name. -/
def upsert_session (w : World) (sid : String) (name : Option String)
    (now : Nat) : World :=
  if (lookupA w.sessions sid).isSome then
    let s1 := updateA (fun sess => { sess with lastActivity := now }) sid w.sessions
    let s2 := if truthyOpt name then
        updateA (fun sess => { sess with name := name }) sid s1
      else s1
    { w with sessions := s2 }
  else
    { w with sessions := w.sessions ++
        [(sid, { name := name, createdAt := now, lastActivity := now,
                 messageCount := 0, ingestedAt := none })] }

/-- `SessionStore.add_message`: a single `INSERT INTO messages` committed on
its own connection; the sessions table is not touched.  Returns the
`lastrowid`. -/
def add_message (w : World) (sid role content : String) (ts : Option Nat)
    (now : Nat) : Nat × World :=
  (w.nextMsgId,
   { w with
      messages := w.messages ++
        [{ id := w.nextMsgId, sessionId := sid, role := role,
           content := content, timestamp := ts.getD now }],
      nextMsgId := w.nextMsgId + 1 })

/-- `SessionStore.increment_message_count`:
`UPDATE sessions SET message_count = message_count + 1 WHERE session_id = ?`. -/
def increment_message_count (w : World) (sid : String) : World :=
  { w with sessions :=
      updateA (fun s => { s with messageCount := s.messageCount + 1 }) sid w.sessions }

/-- `SessionStore.set_ingested_at`. -/
def set_ingested_at (w : World) (sid : String) (ts : Nat) : World :=
  { w with sessions :=
      updateA (fun s => { s with ingestedAt := some ts }) sid w.sessions }

/-- `SessionStore.has_new_messages_since_ingest`: `False` for a missing
session or `message_count == 0`; `True` when never ingested; otherwise
`last_activity > ingested_at`. -/
def has_new_messages_since_ingest (w : World) (sid : String) : Bool :=
  match lookupA w.sessions sid with
  | none => false
  | some sess =>
    if sess.messageCount = 0 then false
    else
      match sess.ingestedAt with
      | none => true
      | some ing => decide (ing < sess.lastActivity)

/-- `JournalManager._format_conversation_for_ingestion`
(`src/rag/journal.py`): optional `Conversation: <name>` header followed by a
blank part, then one `[ROLE] content` part per message, joined by `"\n\n"`.
The header is emitted only when the name is truthy. -/
def format_conversation_for_ingestion (name : Option String)
    (msgs : List Message) : String :=
  let headParts := if truthyOpt name then
      ["Conversation: " ++ name.getD "", ""] else []
  joinNN (headParts ++ msgs.map
    (fun m => "[" ++ m.role.toUpper ++ "] " ++ m.content))

/-- `JournalBlobStorage.get_session_text` (`src/core/file_storage.py`)
applied to an export of the same session data: optional
`Session: <name>` header followed by a blank part, then one
`[ROLE] content` part per message, joined by `"\n\n"`. -/
def get_session_text (name : Option String) (msgs : List Message) : String :=
  let headParts := if truthyOpt name then
      ["Session: " ++ name.getD "", ""] else []
  joinNN (headParts ++ msgs.map
    (fun m => "[" ++ m.role.toUpper ++ "] " ++ m.content))

/-- The ingestion result dict of `JournalManager.ingest_session`: either an
`error` dict or a success dict carrying `chunks_created` and
`message_count`. -/
inductive IngestResult where
  | error (msg : String)
  | ok (chunksCreated : Nat) (messageCount : Nat)
  deriving DecidableEq, Repr

/-- Whether the ingestion result is the success dict. -/
def isOk : IngestResult → Bool
  | .ok _ _ => true
  | .error _ => false

/-- Whether the ingestion result is the `error` dict. -/
def isErr : IngestResult → Bool
  | .ok _ _ => false
  | .error _ => true

/-- The points built by ingestion step 5: one point per chunk with payload
`(text, session_id, session_name, chunk_index, total_chunks, message_count,
ingested_at)` and a fresh id. -/
def buildPoints (base : Nat) (sid : String) (name : Option String)
    (tot mc now : Nat) : List String → Nat → List JournalPoint
  | [], _ => []
  | c :: rest, i =>
    { id := base + i, text := c, sessionId := sid, sessionName := name,
      chunkIndex := i, totalChunks := tot, messageCount := mc,
      ingestedAt := now } :: buildPoints base sid name tot mc now rest (i + 1)

/-- Overwrite the export file of a session (`export_session`: last writer
wins). -/
def setExport (l : List (String × ExportData)) (sid : String)
    (rec : ExportData) : List (String × ExportData) :=
  l.filter (fun e => !(e.1 == sid)) ++ [(sid, rec)]

/-- `JournalManager.ingest_session` (`src/rag/journal.py`): load session +
messages, fail with an error dict when the session is missing or has no
messages; otherwise export the snapshot, delete the session's existing
journal chunks (`delete_session_chunks` filters on payload `session_id`),
chunk the formatted conversation with the journal chunker `ch`, upsert one
fresh point per chunk with `ingested_at = now`, and finally
`set_ingested_at(sid, now)`.  The chunker is passed as a pure function
(`self._chunk_text` with the configured journal window parameters). -/
def ingest_session (w : World) (ch : String → List String) (sid : String)
    (now : Nat) : IngestResult × World :=
  match lookupA w.sessions sid with
  | none => (.error "Session not found", w)
  | some sess =>
    let msgs := get_messages w sid
    if msgs = [] then (.error "Session has no messages", w)
    else
      let chunks := ch (format_conversation_for_ingestion sess.name msgs)
      let pts := buildPoints w.nextPointId sid sess.name chunks.length
        msgs.length now chunks 0
      (.ok chunks.length msgs.length,
       { sessions := updateA (fun s => { s with ingestedAt := some now })
           sid w.sessions,
         messages := w.messages,
         nextMsgId := w.nextMsgId,
         exports := setExport w.exports sid
           { sessionId := sid, name := sess.name, createdAt := sess.createdAt,
             exportedAt := now, messageCount := msgs.length, messages := msgs },
         journal := w.journal.filter (fun p => !(p.sessionId == sid)) ++ pts,
         nextPointId := w.nextPointId + chunks.length })

/-- The journal vectors currently stored for a session. -/
def sidPoints (w : World) (sid : String) : List JournalPoint :=
  w.journal.filter (fun p => p.sessionId == sid)

/-- The payload fields of a journal vector that P4 compares across
re-ingestion runs. -/
def pointKey (p : JournalPoint) : Nat × String × Nat :=
  (p.chunkIndex, p.text, p.totalChunks)

/-- Descending-score order used by the vector store for query results:
similarity scores are exact rationals standing for the store's floats. -/
def scoreGe (score : JournalPoint → ℚ) (a b : JournalPoint) : Prop :=
  score b ≤ score a

instance (score : JournalPoint → ℚ) : DecidableRel (scoreGe score) :=
  fun a b => by
    unfold scoreGe
    infer_instance

/-- Whether a point passes the optional Qdrant `Filter` on payload
`session_id` (a `FieldCondition` with `MatchValue`). -/
def matchesSidFilter (filt : Option String) (p : JournalPoint) : Bool :=
  match filt with
  | none => true
  | some s => p.sessionId == s

/-- `client.query_points(collection, query, query_filter, limit)`: the
points passing the filter, in descending score order, truncated to
`limit`.  The store itself is external (Qdrant); this is its documented
contract (spec section 4.8). -/
def query_points (coll : List JournalPoint) (score : JournalPoint → ℚ)
    (filt : Option String) (lim : Nat) : List JournalPoint :=
  (List.insertionSort (scoreGe score) (coll.filter (matchesSidFilter filt))).take lim

/-- `JournalManager.get_context_for_chat` (`src/rag/journal.py`): build the
optional `session_id` filter (Python truthiness: `if session_id:`), search
with `limit = top_k`, turn hits into `(payload text, score)` pairs and keep
those with `score >= similarity_threshold`. -/
def get_context_for_chat (coll : List JournalPoint)
    (score : JournalPoint → ℚ) (topK : Nat) (threshold : ℚ)
    (sessionId : Option String) : List (String × ℚ) :=
  let queryFilter : Option String :=
    match sessionId with
    | none => none
    | some s => if s == "" then none else some s
  let results := query_points coll score queryFilter topK
  let retrieved := results.map (fun p => (p.text, score p))
  retrieved.filter (fun r => threshold ≤ r.2)

/-- `ChatService._retrieve_journal_context`
(`src/core/services/chat_service.py` lines 275-308): takes the caller's
`session_id` but invokes `journal.get_context_for_chat(...)` with the
literal `session_id=None`; the threshold is the Library similarity
threshold from config.  Returns the results plus the joined context
text. -/
def retrieve_journal_context (coll : List JournalPoint)
    (score : JournalPoint → ℚ) (_sessionId : Option String) (lim : Nat)
    (threshold : ℚ) : List (String × ℚ) × Option String :=
  let results := get_context_for_chat coll score lim threshold none
  if results = [] then ([], none)
  else (results, some (joinNN (results.map (fun r => r.1))))

/-- The journal leg of `ChatService.prepare_chat_message`: when the journal
flag is enabled the journal context is retrieved with the caller's
`session_id` and `journal_top_k`; otherwise it stays empty. -/
def prepareJournalLeg (coll : List JournalPoint)
    (score : JournalPoint → ℚ) (useJournal : Bool)
    (sessionId : Option String) (journalTopK : Nat) (threshold : ℚ) :
    List (String × ℚ) × Option String :=
  if useJournal then
    retrieve_journal_context coll score sessionId journalTopK threshold
  else ([], none)

/-- One vector of the Library collection: payload text plus the `blob_id`
and `original_filename` metadata attached by the worker. -/
structure LibPoint where
  id : Nat
  text : String
  blobId : String
  originalFilename : String
  deriving DecidableEq, Repr

/-- A stored blob as the document worker sees it after parsing: the
original filename from the manifest and the parsed text (parsing by
extension is pure). -/
structure BlobRec where
  originalFilename : String
  text : String
  deriving DecidableEq, Repr

/-- Blob storage plus the Library vector collection. -/
structure LibWorld where
  blobs : List (String × BlobRec)
  library : List LibPoint
  nextPointId : Nat
  deriving DecidableEq, Repr

/-- Modelled from the spec: `rag.add_documents(chunks, metadata)` called by
the worker is part of `rag/rag_setup.py` / `rag/document_ingester.py`,
which are not in the source tree.  Per spec sections 4.5 (steps 5-7) and 9
it builds one vector per chunk with a fresh UUID id and the payload
metadata (`blob_id`, `original_filename`) and upserts them into the Library
collection; the source repo does NOT issue a `delete_by_filter(blob_id)`
first (spec section 9, first source-behavior note). -/
def add_documents (w : LibWorld) (blobId filename : String)
    (chunks : List String) : LibWorld :=
  { w with
    library := w.library ++ chunks.enum.map (fun c =>
      { id := w.nextPointId + c.1, text := c.2, blobId := blobId,
        originalFilename := filename }),
    nextPointId := w.nextPointId + chunks.length }

/-- `process_document` (`src/rag/workers.py`): resolve the blob, parse it,
preprocess and chunk the text (preprocessing and chunking live in the
absent `document_ingester.py`; per spec section 4.5 both are pure, so they
are passed as functions), then `rag.add_documents` with the
`(blob_id, original_filename)` metadata.  No vectors are deleted before
the upsert. -/
def process_document (w : LibWorld) (pre : String → String)
    (ch : String → List String) (blobId : String) :
    Option Nat × LibWorld :=
  match lookupA w.blobs blobId with
  | none => (none, w)
  | some blob =>
    let chunks := ch (pre blob.text)
    (some chunks.length, add_documents w blobId blob.originalFilename chunks)

/-- The Library vectors currently stored for a blob. -/
def blobPoints (w : LibWorld) (blobId : String) : List LibPoint :=
  w.library.filter (fun p => p.blobId == blobId)

/-- Python `text[start:end]` for `0 <= start`, as characters. -/
def sliceL (t : List Char) (start e : Nat) : List Char :=
  (t.drop start).take (e - start)

/-- Python `str.strip()`: drop whitespace from both ends. -/
def stripL (t : List Char) : List Char :=
  ((t.dropWhile Char.isWhitespace).reverse.dropWhile Char.isWhitespace).reverse

/-- Python `text.rfind(sep, lo, hi)` for a two-character separator: the
largest index `i >= lo` with the separator contained in `text[lo:hi]`
(`i + 2 <= hi`), or `none` for Python's `-1`. -/
def rfind2 (t : List Char) (a b : Char) (lo hi : Nat) : Option Nat :=
  ((List.range hi).filter (fun i =>
    decide (lo ≤ i) && decide (i + 2 ≤ hi) &&
    (t.get? i == some a) && (t.get? (i + 1) == some b))).getLast?

/-- The two-character sentence separators of `_find_sentence_break`, in
source order. -/
def sentenceSeps : List (Char × Char) :=
  [('.', ' '), ('.', '\n'), ('?', ' '), ('?', '\n'), ('!', ' '), ('!', '\n')]

/-- The separator loop of `_find_sentence_break`: the first separator (in
list order) whose last occurrence lies strictly after `minPos` wins and
yields `pos + len(sep)`; otherwise `best_break` stays `e`. -/
def fsbAux (t : List Char) (minPos e : Nat) : List (Char × Char) → Nat
  | [] => e
  | s :: rest =>
    match rfind2 t s.1 s.2 minPos e with
    | some pos => if minPos < pos then pos + 2 else fsbAux t minPos e rest
    | none => fsbAux t minPos e rest

/-- `_find_sentence_break(text, start, end)` (`src/rag/chunking.py`). -/
def find_sentence_break (t : List Char) (start e : Nat) : Nat :=
  fsbAux t (start + (e - start) / 2) e sentenceSeps

/-- The chunk end position computed by one iteration of the `chunk_text`
loop with `prefer_paragraph_breaks=True`: `end = start + chunk_size`,
adjusted to the last paragraph break in `[start + W/2, end]` when one lies
strictly after `start`, else to the sentence break, whenever
`end < len(text)`. -/
def endPos (t : List Char) (W start : Nat) : Nat :=
  let e := start + W
  if e < t.length then
    match rfind2 t '\n' '\n' (start + W / 2) e with
    | some pb => if start < pb then pb + 2 else find_sentence_break t start e
    | none => find_sentence_break t start e
  else e

/-- The `while start < len(text)` loop of `chunk_text`, with explicit fuel:
each iteration emits `text[start:end].strip()` when non-empty and advances
`start = end - overlap`.  `none` means the fuel ran out before the loop
exited — the Python loop is still running after that many iterations. -/
def chunkLoop (t : List Char) (W O : Nat) : Nat → Nat → Option (List (List Char))
  | 0, start => if start < t.length then none else some []
  | fuel + 1, start =>
    if start < t.length then
      let e := endPos t W start
      match chunkLoop t W O fuel (e - O) with
      | none => none
      | some rest =>
        let chunk := stripL (sliceL t start e)
        some (if chunk = [] then rest else chunk :: rest)
    else some []

/-- `chunk_text(text, chunk_size, overlap)` (`src/rag/chunking.py`) with
`prefer_paragraph_breaks=True`, run with the given iteration fuel:
`[text]` when `len(text) <= chunk_size` (empty when text is blank),
otherwise the windowing loop. -/
def chunk_text (t : List Char) (W O : Nat) (fuel : Nat) :
    Option (List (List Char)) :=
  if t.length ≤ W then some (if stripL t = [] then [] else [t])
  else chunkLoop t W O fuel 0

/-- The Python `chunk_text` call terminates iff some finite number of loop
iterations suffices. -/
def chunkTerminates (t : List Char) (W O : Nat) : Prop :=
  ∃ fuel, (chunk_text t W O fuel).isSome

/-- Input on which `chunk_text(text, 10, 7)` loops forever: the paragraph
break at index 5 pins `end` to 7 while `start = end - overlap` falls back
to 0 on every iteration. -/
def c8Text : List Char := "aaaaa\n\nbbbbbbbbbbbbbbbbbbbb".toList

instance (score : JournalPoint → ℚ) : IsTotal JournalPoint (scoreGe score) :=
  ⟨fun a b => le_total (score b) (score a)⟩

instance (score : JournalPoint → ℚ) : IsTrans JournalPoint (scoreGe score) :=
  ⟨fun _ _ _ hab hbc => le_trans hbc hab⟩

/-- A fresh database: no sessions, no messages, empty blob directory and
journal collection. -/
def emptyWorld : World :=
  { sessions := [], messages := [], nextMsgId := 1, exports := [],
    journal := [], nextPointId := 0 }

/-- Create session `s` at time 0. -/
def exW0 : World := upsert_session emptyWorld "s" none 0

/-- ... then `add_message("s", "user", "hi")` at time 1. -/
def exW1 : World := (add_message exW0 "s" "user" "hi" (some 1) 1).2

/-- ... then the separate `increment_message_count("s")` a well-behaved
caller issues. -/
def exW2 : World := increment_message_count exW1 "s"

/-- ... then `ingest_session("s")` at time 2 (single-chunk chunker). -/
def exIngest : IngestResult × World :=
  ingest_session exW2 (fun t => [t]) "s" 2

/-- ... then another `add_message("s", "user", "more")` at time 3, with no
other calls. -/
def exW4 : World := (add_message exIngest.2 "s" "user" "more" (some 3) 3).2

/-- A journal chunk of session `s1`. -/
def exP1 : JournalPoint :=
  { id := 0, text := "a", sessionId := "s1", sessionName := none,
    chunkIndex := 0, totalChunks := 1, messageCount := 1, ingestedAt := 0 }

/-- A journal chunk of a different session `s2`. -/
def exP2 : JournalPoint :=
  { id := 1, text := "b", sessionId := "s2", sessionName := none,
    chunkIndex := 0, totalChunks := 1, messageCount := 1, ingestedAt := 0 }

/-- A journal collection holding chunks of two distinct sessions. -/
def exColl : List JournalPoint := [exP1, exP2]

/-- A similarity profile under which the `s2` chunk outranks the `s1`
chunk. -/
def exScore : JournalPoint → ℚ := fun p => if p.sessionId == "s2" then 1 else 0

/-- Blob storage holding one text blob `B1`, with an empty Library
collection. -/
def exLibW : LibWorld :=
  { blobs := [("B1", { originalFilename := "doc.txt", text := "hello" })],
    library := [], nextPointId := 0 }

/-- A message used in the formatting counterexample. -/
def exMsg : Message :=
  { id := 1, sessionId := "s", role := "user", content := "hi", timestamp := 1 }

/-- The session row of `s` in `exW2`: created at 0, one counted message,
never ingested. -/
def exSess1 : Session :=
  { name := none, createdAt := 0, lastActivity := 0, messageCount := 1,
    ingestedAt := none }

/-- The arguments of one paired caller action: `add_message(sid, role,
content, ts)` immediately followed by `increment_message_count(sid)`. -/
structure MsgOp where
  sid : String
  role : String
  content : String
  ts : Option Nat
  now : Nat
  deriving DecidableEq, Repr

/-- Run one paired `add_message` + `increment_message_count` action. -/
def applyMsgOp (w : World) (op : MsgOp) : World :=
  increment_message_count
    (add_message w op.sid op.role op.content op.ts op.now).2 op.sid

/-- Run a sequence of paired actions. -/
def applyMsgOps (w : World) (ops : List MsgOp) : World :=
  ops.foldl applyMsgOp w

/-- Invariant P2: every session row's `message_count` equals the number of
its message rows. -/
def countInv (w : World) : Prop :=
  ∀ e ∈ w.sessions, e.2.messageCount = (get_messages w e.1).length

instance (w : World) : Decidable (countInv w) := by
  unfold countInv
  infer_instance

/-- Two paired message actions on two sessions. -/
def exOps : List MsgOp :=
  [{ sid := "s", role := "user", content := "a", ts := some 4, now := 4 },
   { sid := "t", role := "user", content := "b", ts := none, now := 5 }]

/-! ## Helper lemmas -/

theorem lookupA_updateA {α : Type} (f : α → α) (s s2 : String)
    (l : List (String × α)) :
    lookupA (updateA f s l) s2 =
      if s2 = s then (lookupA l s2).map f else lookupA l s2 := by
  induction l with
  | nil => simp [lookupA, updateA]
  | cons e rest ih =>
    obtain ⟨k, v⟩ := e
    by_cases hk : k = s
    · subst hk
      by_cases h2 : k = s2
      · subst h2
        simp [lookupA, updateA]
      · simp [lookupA, updateA, h2, Ne.symm h2, ih]
    · by_cases h2 : k = s2
      · subst h2
        simp [lookupA, updateA, hk, Ne.symm hk]
      · simp [lookupA, updateA, hk, h2, ih]

theorem mem_updateA {α : Type} {f : α → α} {s : String}
    {l : List (String × α)} {e : String × α} (h : e ∈ updateA f s l) :
    ∃ e0 ∈ l, e = (e0.1, if e0.1 = s then f e0.2 else e0.2) := by
  induction l with
  | nil => simp [updateA] at h
  | cons hd rest ih =>
    obtain ⟨k, v⟩ := hd
    rw [updateA] at h
    rcases List.mem_cons.mp h with h1 | h1
    · exact ⟨(k, v), List.mem_cons_self _ _, h1⟩
    · obtain ⟨e0, he0, heq⟩ := ih h1
      exact ⟨e0, List.mem_cons_of_mem _ he0, heq⟩

theorem lookupA_mem {α : Type} {l : List (String × α)} {s : String} {v : α}
    (h : lookupA l s = some v) : (s, v) ∈ l := by
  induction l with
  | nil => simp [lookupA] at h
  | cons e rest ih =>
    by_cases h1 : e.1 = s
    · simp [lookupA, h1] at h
      subst h1
      rw [← h]
      exact List.mem_cons_self _ _
    · simp [lookupA, h1] at h
      exact List.mem_cons_of_mem _ (ih h)

theorem length_get_messages (w : World) (sid : String) :
    (get_messages w sid).length =
      (w.messages.filter (fun m => m.sessionId == sid)).length := by
  unfold get_messages
  exact List.length_insertionSort _ _

/-! ## C6 — threshold contract and ordering of journal retrieval -/

/-- C6: every `(text, score)` pair returned by `get_context_for_chat`
satisfies `score >= threshold`, and the returned list preserves the vector
store's descending-score order. -/
theorem c6_threshold_and_order (coll : List JournalPoint)
    (score : JournalPoint → ℚ) (topK : Nat) (threshold : ℚ)
    (sessionId : Option String) :
    (∀ r ∈ get_context_for_chat coll score topK threshold sessionId,
        threshold ≤ r.2) ∧
    List.Pairwise (fun a b : String × ℚ => b.2 ≤ a.2)
      (get_context_for_chat coll score topK threshold sessionId) := by
  constructor
  · intro r hr
    unfold get_context_for_chat at hr
    simp only [List.mem_filter, decide_eq_true_eq] at hr
    exact hr.2
  · unfold get_context_for_chat query_points
    refine List.Pairwise.sublist (List.filter_sublist _) ?h
    refine List.Pairwise.map (R := scoreGe score) _ (fun a b h => h) ?h2
    refine List.Pairwise.sublist (List.take_sublist _ _) ?h3
    exact List.sorted_insertionSort _ _

/-! ## C4 — session filtering of the journal search -/

/-- C4 counterexample: the context assembler is called with
`session_id = "s1"` and the journal flag enabled, yet it returns the chunk
text `"b"`, which no chunk of session `s1` carries — the journal search was
not filtered to `"s1"`. -/
theorem c4_session_filter_counterexample :
    ("b", (1 : ℚ)) ∈ (prepareJournalLeg exColl exScore true (some "s1") 5 0).1 ∧
    ∀ p ∈ exColl, p.sessionId = "s1" → ¬ p.text = "b" := by decide

/-- C4 amended: `ChatService._retrieve_journal_context` invokes
`get_context_for_chat` with the literal `session_id=None`, so the
assembler's journal search is identical for every supplied `session_id`
(all sessions are searched); only a direct `get_context_for_chat` call
with a non-empty `session_id` restricts results to chunks of that
session. -/
theorem c4_session_filter_amended (coll : List JournalPoint)
    (score : JournalPoint → ℚ) (sid : Option String) (k : Nat) (q : ℚ)
    (s : String) (r : String × ℚ) (hs : ¬ s = "")
    (hr : r ∈ get_context_for_chat coll score k q (some s)) :
    prepareJournalLeg coll score true sid k q =
      prepareJournalLeg coll score true none k q ∧
    ∃ p ∈ coll, p.sessionId = s ∧ p.text = r.1 := by
  constructor
  · rfl
  · unfold get_context_for_chat query_points at hr
    have hbeq : (s == "") = false := by
      simp [hs]
    simp only [hbeq, Bool.false_eq_true, if_false, List.mem_filter,
      List.mem_map] at hr
    obtain ⟨⟨p, hp, hpr⟩, _⟩ := hr
    have hp2 : p ∈ List.insertionSort (scoreGe score)
        (coll.filter (matchesSidFilter (some s))) :=
      List.mem_of_mem_take hp
    have hp3 : p ∈ coll.filter (matchesSidFilter (some s)) :=
      ((List.perm_insertionSort _ _).mem_iff).mp hp2
    have hp4 := List.mem_filter.mp hp3
    refine ⟨p, hp4.1, ?_, ?_⟩
    · have := hp4.2
      unfold matchesSidFilter at this
      exact eq_of_beq this
    · rw [← hpr]

/-! ## C7 — canonical conversation text -/

/-- C7 counterexample: for a session named `"x"` with one message, the text
that journal ingestion chunks and embeds differs from the Journal Blob
Store's canonical text — the ingestion header starts `Conversation: `, the
blob-store header starts `Session: `. -/
theorem c7_format_counterexample :
    ¬ format_conversation_for_ingestion (some "x") [exMsg] =
        get_session_text (some "x") [exMsg] := by decide

/-- C7 amended: the two texts agree exactly when the session name is falsy
(absent or empty); for a truthy name they share the name and the whole
remainder, differing only in the header label (`Conversation: ` for
ingestion vs `Session: ` for the blob store). -/
theorem c7_format_amended (name : Option String) (msgs : List Message) :
    (truthyOpt name = false →
      format_conversation_for_ingestion name msgs = get_session_text name msgs) ∧
    (∀ n, name = some n → truthyOpt (some n) = true →
      ∃ R, format_conversation_for_ingestion name msgs =
              ("Conversation: " ++ n) ++ R ∧
            get_session_text name msgs = ("Session: " ++ n) ++ R) := by
  constructor
  · intro h
    unfold format_conversation_for_ingestion get_session_text
    simp [h]
  · intro n hn ht
    subst hn
    unfold format_conversation_for_ingestion get_session_text
    refine ⟨"\n\n" ++ joinNN ("" :: msgs.map
      (fun m => "[" ++ m.role.toUpper ++ "] " ++ m.content)), ?_, ?_⟩ <;>
      simp [ht, joinNN, String.append_assoc]

/-! ## C3 — document worker re-processing -/

/-- C3: the worker does not delete the Library vectors of a blob before
upserting (the delete-by-filter mandated by the spec is absent from
`process_document`), so processing the unchanged blob `B1` twice leaves
two vectors carrying `blob_id = "B1"` where one run leaves one — the
vector set is not the same. -/
theorem c3_reprocess_duplicates_vectors :
    (process_document exLibW id (fun t => [t]) "B1").1 = some 1 ∧
    (blobPoints (process_document exLibW id (fun t => [t]) "B1").2 "B1").length
      = 1 ∧
    (blobPoints (process_document
        (process_document exLibW id (fun t => [t]) "B1").2
        id (fun t => [t]) "B1").2 "B1").length = 2 := by decide

/-! ## C10 — ingest of a missing or empty session -/

/-- C10: for a session id that is absent from the store, or whose session
has no messages, `ingest_session` returns the error dict without raising
and performs no writes: the whole state (sessions including `ingested_at`,
messages, exports, journal collection, id counters) is returned
unchanged. -/
theorem c10_ingest_error_no_writes (w : World) (ch : String → List String)
    (sid : String) (now : Nat)
    (h : lookupA w.sessions sid = none ∨ get_messages w sid = []) :
    isErr (ingest_session w ch sid now).1 = true ∧
    (ingest_session w ch sid now).2 = w := by
  rcases h with h | h
  · simp [ingest_session, h, isErr]
  · cases hl : lookupA w.sessions sid with
    | none => simp [ingest_session, hl, isErr]
    | some sess => simp [ingest_session, hl, h, isErr]

/-- C10 witness: ingesting the unknown session id `nope` of the fresh
store errors and leaves the state untouched. -/
theorem c10_ingest_error_witness :
    isErr (ingest_session emptyWorld (fun t => [t]) "nope" 5).1 = true ∧
    (ingest_session emptyWorld (fun t => [t]) "nope" 5).2 = emptyWorld :=
  c10_ingest_error_no_writes emptyWorld (fun t => [t]) "nope" 5
    (Or.inl (by decide))

/-! ## C9 — frame conditions of `upsert_session` on an existing session -/

/-- C9: for an existing session, `upsert_session` sets `last_activity` to
now and, only for a truthy name, the name; `created_at`, `message_count`
and `ingested_at` are untouched and no message rows are added or
removed. -/
theorem c9_upsert_frame (w : World) (sid : String) (name : Option String)
    (now : Nat) (sess : Session) (h : lookupA w.sessions sid = some sess) :
    ∃ sess2,
      lookupA (upsert_session w sid name now).sessions sid = some sess2 ∧
      sess2.createdAt = sess.createdAt ∧
      sess2.messageCount = sess.messageCount ∧
      sess2.ingestedAt = sess.ingestedAt ∧
      sess2.lastActivity = now ∧
      (truthyOpt name = true → sess2.name = name) ∧
      (truthyOpt name = false → sess2.name = sess.name) ∧
      (upsert_session w sid name now).messages = w.messages := by
  have hsome : (lookupA w.sessions sid).isSome := by rw [h]; rfl
  by_cases ht : truthyOpt name = true
  · refine ⟨{ sess with lastActivity := now, name := name }, ?_, rfl, rfl,
      rfl, rfl, ?_, ?_, ?_⟩
    · simp [upsert_session, hsome, ht, lookupA_updateA, h]
    · intro _
      rfl
    · intro hc
      simp [ht] at hc
    · simp [upsert_session, hsome, ht]
  · refine ⟨{ sess with lastActivity := now }, ?_, rfl, rfl,
      rfl, rfl, ?_, ?_, ?_⟩
    · simp [upsert_session, hsome, ht, lookupA_updateA, h]
    · intro hc
      exact absurd hc ht
    · intro _
      rfl
    · simp [upsert_session, hsome, ht]

/-- C9 witness: touching the existing session `s` of the concrete store at
time 7 keeps `created_at = 0`, `message_count = 1`, `ingested_at` and the
message rows. -/
theorem c9_upsert_frame_witness :
    ∃ sess2,
      lookupA (upsert_session exW2 "s" none 7).sessions "s" = some sess2 ∧
      sess2.createdAt = exSess1.createdAt ∧
      sess2.messageCount = exSess1.messageCount ∧
      sess2.ingestedAt = exSess1.ingestedAt ∧
      sess2.lastActivity = 7 ∧
      (truthyOpt none = true → sess2.name = none) ∧
      (truthyOpt none = false → sess2.name = exSess1.name) ∧
      (upsert_session exW2 "s" none 7).messages = exW2.messages :=
  c9_upsert_frame exW2 "s" none 7 exSess1 (by decide)

/-! ## C1 — message count maintenance -/

theorem length_get_messages_applyMsgOp (w : World) (op : MsgOp)
    (sid2 : String) :
    (get_messages (applyMsgOp w op) sid2).length =
      (get_messages w sid2).length + (if op.sid = sid2 then 1 else 0) := by
  rw [length_get_messages, length_get_messages]
  unfold applyMsgOp increment_message_count add_message
  simp only [List.filter_append, List.length_append]
  by_cases h : op.sid = sid2
  · simp [h]
  · simp [h]

theorem countInv_applyMsgOp {w : World} (h : countInv w) (op : MsgOp) :
    countInv (applyMsgOp w op) := by
  intro e he
  have he2 : e ∈ updateA (fun s => { s with messageCount := s.messageCount + 1 })
      op.sid w.sessions := he
  obtain ⟨e0, he0, heq⟩ := mem_updateA he2
  subst heq
  rw [length_get_messages_applyMsgOp]
  by_cases hx : e0.1 = op.sid
  · simp only [if_pos hx, if_pos hx.symm]
    simp [h e0 he0]
  · simp only [if_neg hx, if_neg (Ne.symm hx)]
    simp [h e0 he0]

/-- C1 counterexample: `add_message` alone does not increment
`message_count` — after creating session `s` and adding one message, the
row's `message_count` is 0 while `get_messages` returns 1 row, so
`message_count != len(get_messages(s))`. -/
theorem c1_add_message_count_counterexample :
    ¬ (lookupA exW1.sessions "s").map Session.messageCount =
        some (get_messages exW1 "s").length := by decide

/-- C1 amended: `add_message` only inserts the message row; the count
update lives in the separate `increment_message_count`.  P2
(`message_count = len(get_messages(s))` for every stored session) is
preserved by any sequence of `add_message` calls in which each is
immediately followed by `increment_message_count` on the same session. -/
theorem c1_paired_add_increment_preserves_count (w : World)
    (ops : List MsgOp) (h : countInv w) : countInv (applyMsgOps w ops) := by
  induction ops generalizing w with
  | nil => exact h
  | cons op rest ih => exact ih _ (countInv_applyMsgOp h op)

/-- C1 witness: the invariant holds concretely after running two paired
actions from the store holding session `s` with one counted message. -/
theorem c1_paired_witness : countInv (applyMsgOps exW2 exOps) :=
  c1_paired_add_increment_preserves_count exW2 exOps (by decide)

/-! ## C2 — staleness watermark -/

theorem ingest_success_eq (w : World) (ch : String → List String)
    (sid : String) (now : Nat) (sess : Session)
    (hl : lookupA w.sessions sid = some sess)
    (hm : ¬ get_messages w sid = []) :
    ingest_session w ch sid now =
      (IngestResult.ok
        (ch (format_conversation_for_ingestion sess.name
          (get_messages w sid))).length (get_messages w sid).length,
       { sessions := updateA (fun s => { s with ingestedAt := some now })
           sid w.sessions,
         messages := w.messages,
         nextMsgId := w.nextMsgId,
         exports := setExport w.exports sid
           { sessionId := sid, name := sess.name,
             createdAt := sess.createdAt, exportedAt := now,
             messageCount := (get_messages w sid).length,
             messages := get_messages w sid },
         journal := w.journal.filter (fun p => !(p.sessionId == sid)) ++
           buildPoints w.nextPointId sid sess.name
             (ch (format_conversation_for_ingestion sess.name
               (get_messages w sid))).length
             (get_messages w sid).length now
             (ch (format_conversation_for_ingestion sess.name
               (get_messages w sid))) 0,
         nextPointId := w.nextPointId +
           (ch (format_conversation_for_ingestion sess.name
             (get_messages w sid))).length }) := by
  unfold ingest_session
  rw [hl]
  dsimp only
  rw [if_neg hm]

/-- C2 counterexample: session `s` (one counted message) is ingested at
time 2, then `add_message` appends a message at time 3 with no other call;
the claim says `has_new_messages_since_ingest` is now `true`, but
`add_message` leaves the sessions row (and so `last_activity`) untouched
and the store still reports `false`. -/
theorem c2_add_message_stale_counterexample :
    ¬ has_new_messages_since_ingest exW4 "s" = true := by decide

/-- C2 amended: after a successful `ingest_session(s)` at a time `now` not
before the session's `last_activity` (the real clock is monotone),
`has_new_messages_since_ingest(s)` is `false`; but `add_message` changes no
session row, so it leaves `has_new_messages_since_ingest` of every session
unchanged rather than making it `true`. -/
theorem c2_watermark_amended (w : World) (ch : String → List String)
    (sid : String) (now : Nat)
    (hok : isOk (ingest_session w ch sid now).1 = true)
    (hmono : ∀ e ∈ w.sessions, e.1 = sid → e.2.lastActivity ≤ now) :
    has_new_messages_since_ingest (ingest_session w ch sid now).2 sid = false ∧
    ∀ (w2 : World) (sid2 role content : String) (ts : Option Nat)
      (now2 : Nat) (s2 : String),
      has_new_messages_since_ingest
          (add_message w2 sid2 role content ts now2).2 s2 =
        has_new_messages_since_ingest w2 s2 := by
  constructor
  · cases hl : lookupA w.sessions sid with
    | none =>
      unfold ingest_session at hok
      rw [hl] at hok
      simp [isOk] at hok
    | some sess =>
      by_cases hm : get_messages w sid = []
      · unfold ingest_session at hok
        rw [hl] at hok
        simp [hm, isOk] at hok
      · have hla : sess.lastActivity ≤ now :=
          hmono (sid, sess) (lookupA_mem hl) rfl
        rw [ingest_success_eq w ch sid now sess hl hm]
        unfold has_new_messages_since_ingest
        dsimp only
        rw [lookupA_updateA, if_pos rfl, hl]
        dsimp only [Option.map]
        by_cases hc : sess.messageCount = 0
        · simp [hc]
        · simp [hc, Nat.not_lt.mpr hla]
  · intro w2 sid2 role content ts now2 s2
    rfl

/-- C2 witness: ingesting the concrete store's session `s` at time 2
leaves it non-stale. -/
theorem c2_watermark_witness :
    has_new_messages_since_ingest
      (ingest_session exW2 (fun t => [t]) "s" 2).2 "s" = false :=
  (c2_watermark_amended exW2 (fun t => [t]) "s" 2 (by decide) (by decide)).1

/-! ## C8 — chunker termination -/

theorem mem_of_getLast_eq {α : Type} {l : List α} {a : α}
    (h : l.getLast? = some a) : a ∈ l := by
  induction l with
  | nil => simp at h
  | cons x rest ih =>
    cases rest with
    | nil =>
      simp [List.getLast?] at h
      simp [h]
    | cons y t =>
      rw [List.getLast?_cons_cons] at h
      exact List.mem_cons_of_mem _ (ih h)

theorem rfind2_lo {t : List Char} {a b : Char} {lo hi i : Nat}
    (h : rfind2 t a b lo hi = some i) : lo ≤ i := by
  unfold rfind2 at h
  have hm := mem_of_getLast_eq h
  have := (List.mem_filter.mp hm).2
  simp only [Bool.and_eq_true, decide_eq_true_eq] at this
  exact this.1.1.1

theorem fsbAux_ge (t : List Char) (m e : Nat) (seps : List (Char × Char)) :
    min e (m + 3) ≤ fsbAux t m e seps := by
  induction seps with
  | nil => exact min_le_left _ _
  | cons s rest ih =>
    rw [fsbAux]
    cases hr : rfind2 t s.1 s.2 m e with
    | none => exact ih
    | some pos =>
      dsimp only
      by_cases hp : m < pos
      · rw [if_pos hp]
        calc min e (m + 3) ≤ m + 3 := min_le_right _ _
          _ ≤ pos + 2 := by omega
      · rw [if_neg hp]
        exact ih

theorem find_sentence_break_ge (t : List Char) (start e : Nat) :
    min e (start + (e - start) / 2 + 3) ≤ find_sentence_break t start e :=
  fsbAux_ge t (start + (e - start) / 2) e sentenceSeps

theorem endPos_ge (t : List Char) (W start : Nat) :
    start + min W (W / 2 + 2) ≤ endPos t W start := by
  unfold endPos
  by_cases he : start + W < t.length
  · rw [if_pos he]
    have hfsb : start + min W (W / 2 + 2) ≤
        find_sentence_break t start (start + W) := by
      have h1 := find_sentence_break_ge t start (start + W)
      have h2 : start + W - start = W := by omega
      rw [h2] at h1
      calc start + min W (W / 2 + 2)
          ≤ min (start + W) (start + W / 2 + 3) := by
            rcases Nat.le_total W (W / 2 + 2) with hc | hc
            · rw [min_eq_left hc]
              exact le_min (by omega) (by omega)
            · rw [min_eq_right hc]
              exact le_min (by omega) (by omega)
        _ ≤ find_sentence_break t start (start + W) := h1
    cases hr : rfind2 t '\n' '\n' (start + W / 2) (start + W) with
    | none => exact hfsb
    | some pb =>
      dsimp only
      by_cases hp : start < pb
      · rw [if_pos hp]
        have := rfind2_lo hr
        calc start + min W (W / 2 + 2) ≤ start + (W / 2 + 2) := by
              have := min_le_right W (W / 2 + 2)
              omega
          _ ≤ pb + 2 := by omega
      · rw [if_neg hp]
        exact hfsb
  · rw [if_neg he]
    have := min_le_left W (W / 2 + 2)
    omega

theorem chunkLoop_isSome (t : List Char) (W O : Nat) (h2 : O < W)
    (h3 : O < W / 2 + 2) :
    ∀ fuel start, t.length ≤ start + fuel →
      (chunkLoop t W O fuel start).isSome = true := by
  intro fuel
  induction fuel with
  | zero =>
    intro start hlen
    rw [chunkLoop, if_neg (by omega)]
    rfl
  | succ n ih =>
    intro start hlen
    by_cases hst : start < t.length
    · have hend := endPos_ge t W start
      have hmin : O < min W (W / 2 + 2) := lt_min h2 h3
      have hprog : start + 1 ≤ endPos t W start - O := by omega
      have hrec := ih (endPos t W start - O) (by omega)
      obtain ⟨rest, hrest⟩ := Option.isSome_iff_exists.mp hrec
      rw [chunkLoop, if_pos hst]
      dsimp only
      rw [hrest]
      rfl
    · rw [chunkLoop, if_neg hst]
      rfl

theorem c8_loop_stuck : ∀ fuel, chunkLoop c8Text 10 7 fuel 0 = none := by
  intro fuel
  induction fuel with
  | zero => decide
  | succ n ih =>
    rw [chunkLoop, if_pos (by decide : 0 < c8Text.length)]
    dsimp only
    rw [(by decide : endPos c8Text 10 0 = 7), Nat.sub_self, ih]

/-- C8 counterexample: with `W = 10`, `O = 7` (so `0 <= O < W`) and the
27-character text `aaaaa\n\nb...b`, the `chunk_text` loop never exits —
after any number of iterations it is still running (`end` is pinned to 7 by
the paragraph break and `start = end - overlap` returns to 0), refuting
termination for all `O < W`. -/
theorem c8_nontermination_counterexample : ¬ chunkTerminates c8Text 10 7 := by
  rintro ⟨fuel, hf⟩
  rw [chunk_text, if_neg (by decide : ¬ c8Text.length ≤ 10),
    c8_loop_stuck fuel] at hf
  simp at hf

/-- C8 amended: `chunk_text(text, W, O)` terminates for every text whenever
additionally `O < W/2 + 2` — then every loop iteration strictly advances
`start` (the claim's strict-progress argument), and `len(text)` iterations
always suffice.  For `W/2 + 2 <= O < W` the loop can fail to progress (see
the counterexample). -/
theorem c8_termination_amended (t : List Char) (W O : Nat) (h2 : O < W)
    (h3 : O < W / 2 + 2) :
    ∃ res, chunk_text t W O t.length = some res := by
  by_cases hlen : t.length ≤ W
  · exact ⟨_, by rw [chunk_text, if_pos hlen]⟩
  · have h := chunkLoop_isSome t W O h2 h3 t.length 0 (by omega)
    obtain ⟨res, hres⟩ := Option.isSome_iff_exists.mp h
    exact ⟨res, by rw [chunk_text, if_neg hlen, hres]⟩

/-- C8 witness: the scenario-1 text chunks to completion with `W = 20`,
`O = 5`. -/
theorem c8_termination_witness :
    ∃ res, chunk_text
      "Apples are red. Bananas are yellow. Cherries are dark red.".toList
      20 5
      "Apples are red. Bananas are yellow. Cherries are dark red.".toList.length
      = some res :=
  c8_termination_amended _ 20 5 (by decide) (by decide)

/-! ## C5 — re-ingest idempotence -/

theorem buildPoints_mem {base : Nat} {sid : String} {nm : Option String}
    {tot mc now : Nat} {chunks : List String} {i : Nat} {p : JournalPoint}
    (h : p ∈ buildPoints base sid nm tot mc now chunks i) :
    p.sessionId = sid ∧ p.ingestedAt = now ∧ base ≤ p.id := by
  induction chunks generalizing i with
  | nil => simp [buildPoints] at h
  | cons c rest ih =>
    rw [buildPoints] at h
    rcases List.mem_cons.mp h with h1 | h1
    · subst h1
      exact ⟨rfl, rfl, Nat.le_add_right base i⟩
    · obtain ⟨ha, hb, hc⟩ := ih h1
      exact ⟨ha, hb, by omega⟩

theorem buildPoints_filter_self (base : Nat) (sid : String)
    (nm : Option String) (tot mc now : Nat) (chunks : List String) (i : Nat) :
    (buildPoints base sid nm tot mc now chunks i).filter
        (fun p => p.sessionId == sid) =
      buildPoints base sid nm tot mc now chunks i := by
  apply List.filter_eq_self.mpr
  intro p hp
  simp [(buildPoints_mem hp).1]

theorem filter_not_self (l : List JournalPoint) (sid : String) :
    (l.filter (fun p => !(p.sessionId == sid))).filter
        (fun p => p.sessionId == sid) = [] := by
  rw [List.filter_filter]
  simp

theorem buildPoints_map_key (b1 b2 : Nat) (sid : String)
    (n1 n2 : Option String) (tot mc t1 t2 : Nat) (chunks : List String) :
    ∀ i, (buildPoints b1 sid n1 tot mc t1 chunks i).map pointKey =
      (buildPoints b2 sid n2 tot mc t2 chunks i).map pointKey := by
  induction chunks with
  | nil => intro i; rfl
  | cons c rest ih =>
    intro i
    simp only [buildPoints, List.map_cons, pointKey, ih (i + 1)]

/-- C5: re-ingesting a session with no intervening `add_message` first
deletes all of the session's journal chunks and then rebuilds them from the
same conversation text, so the second run succeeds and yields the same
`(chunk_index, text, total_chunks)` payloads as the first, and every chunk
stored for the session afterwards was created by the second run (fresh ids
at or above the first run's high-water mark, `ingested_at = now2`): no
chunk of the first run remains. -/
theorem c5_reingest_idempotent (w : World) (ch : String → List String)
    (sid : String) (now1 now2 : Nat) (sess : Session)
    (hl : lookupA w.sessions sid = some sess)
    (hm : ¬ get_messages w sid = []) :
    isOk (ingest_session (ingest_session w ch sid now1).2 ch sid now2).1 = true ∧
    (sidPoints (ingest_session (ingest_session w ch sid now1).2 ch sid now2).2 sid).map
        pointKey =
      (sidPoints (ingest_session w ch sid now1).2 sid).map pointKey ∧
    ∀ p ∈ (ingest_session (ingest_session w ch sid now1).2 ch sid now2).2.journal,
      p.sessionId = sid →
        (ingest_session w ch sid now1).2.nextPointId ≤ p.id ∧
        p.ingestedAt = now2 := by
  have hE1 := ingest_success_eq w ch sid now1 sess hl hm
  have hmsgs1 : get_messages (ingest_session w ch sid now1).2 sid =
      get_messages w sid := by
    unfold get_messages
    rw [hE1]
  have hl1 : lookupA (ingest_session w ch sid now1).2.sessions sid =
      some { sess with ingestedAt := some now1 } := by
    rw [hE1]
    dsimp only
    rw [lookupA_updateA, if_pos rfl, hl]
    rfl
  have hm1 : ¬ get_messages (ingest_session w ch sid now1).2 sid = [] := by
    rw [hmsgs1]
    exact hm
  have hE2 := ingest_success_eq (ingest_session w ch sid now1).2 ch sid now2
    { sess with ingestedAt := some now1 } hl1 hm1
  rw [hmsgs1] at hE2
  have hlhs : sidPoints (ingest_session (ingest_session w ch sid now1).2 ch sid now2).2 sid =
      buildPoints (ingest_session w ch sid now1).2.nextPointId sid sess.name
        (ch (format_conversation_for_ingestion sess.name (get_messages w sid))).length
        (get_messages w sid).length now2
        (ch (format_conversation_for_ingestion sess.name (get_messages w sid))) 0 := by
    unfold sidPoints
    rw [hE2]
    dsimp only
    rw [List.filter_append, filter_not_self, List.nil_append,
      buildPoints_filter_self]
  have hrhs : sidPoints (ingest_session w ch sid now1).2 sid =
      buildPoints w.nextPointId sid sess.name
        (ch (format_conversation_for_ingestion sess.name (get_messages w sid))).length
        (get_messages w sid).length now1
        (ch (format_conversation_for_ingestion sess.name (get_messages w sid))) 0 := by
    unfold sidPoints
    rw [hE1]
    dsimp only
    rw [List.filter_append, filter_not_self, List.nil_append,
      buildPoints_filter_self]
  refine ⟨?_, ?_, ?_⟩
  · rw [hE2]
    rfl
  · rw [hlhs, hrhs]
    exact buildPoints_map_key _ _ sid _ _ _ _ _ _ _ 0
  · intro p hp hsid
    rw [hE2] at hp
    dsimp only at hp
    rcases List.mem_append.mp hp with h1 | h1
    · have hneg := (List.mem_filter.mp h1).2
      simp [hsid] at hneg
    · obtain ⟨ha, hb, hc⟩ := buildPoints_mem h1
      exact ⟨hc, hb⟩

/-- C5 witness: re-ingesting the concrete session `s` at times 2 and 5
with a single-chunk chunker reproduces the same chunk payloads, all
belonging to the second run. -/
theorem c5_reingest_witness :
    isOk (ingest_session (ingest_session exW2 (fun t => [t]) "s" 2).2
      (fun t => [t]) "s" 5).1 = true ∧
    (sidPoints (ingest_session (ingest_session exW2 (fun t => [t]) "s" 2).2
        (fun t => [t]) "s" 5).2 "s").map pointKey =
      (sidPoints (ingest_session exW2 (fun t => [t]) "s" 2).2 "s").map pointKey ∧
    ∀ p ∈ (ingest_session (ingest_session exW2 (fun t => [t]) "s" 2).2
        (fun t => [t]) "s" 5).2.journal,
      p.sessionId = "s" →
        (ingest_session exW2 (fun t => [t]) "s" 2).2.nextPointId ≤ p.id ∧
        p.ingestedAt = 5 :=
  c5_reingest_idempotent exW2 (fun t => [t]) "s" 2 5 exSess1
    (by decide) (by decide)

/-- C4 witness: the assembler behaves identically with and without a
supplied session id, and a direct `get_context_for_chat` call filtered to
`s2` only returns text carried by an `s2` chunk. -/
theorem c4_session_filter_witness :
    prepareJournalLeg exColl exScore true (some "s1") 5 0 =
      prepareJournalLeg exColl exScore true none 5 0 ∧
    ∃ p ∈ exColl, p.sessionId = "s2" ∧ p.text = (("b", (1 : ℚ))).1 :=
  c4_session_filter_amended exColl exScore (some "s1") 5 0 "s2" ("b", 1)
    (by decide) (by decide)

/-- C7 witness: for the named session `x` with one message, both canonical
texts are the respective header label followed by the identical
remainder. -/
theorem c7_format_witness :
    ∃ R, format_conversation_for_ingestion (some "x") [exMsg] =
        ("Conversation: " ++ "x") ++ R ∧
      get_session_text (some "x") [exMsg] = ("Session: " ++ "x") ++ R :=
  (c7_format_amended (some "x") [exMsg]).2 "x" rfl (by decide)
